import Mathlib

/-!
Verification of the fact-store adapter layer (src/python/src/adapter.py).

The embedding models the relational state of the three tables `categories`,
`facts` and `entries` (the unused `urls` / `fact_references` tables carry no
behaviour and are omitted), together with the AUTOINCREMENT counters, and the
operations of `SQLite3Adapter` as pure functions on that state.  SQLite
behaviours that the adapter relies on are modelled explicitly:

* a `with self._connection` block is one transaction: it commits on normal
  exit and rolls back when an exception escapes, so the entry-insertion loop
  of `add_fact` is atomic while the earlier fact/category insertions are
  separate committed transactions;
* the connection never issues `PRAGMA foreign_keys = ON` and sqlite3 keeps
  foreign-key enforcement off by default, so the declared ON DELETE CASCADE
  on `entries` does not run when a category row is deleted;
* the default LIKE operator is case-insensitive for ASCII characters;
* a negative OFFSET is treated as zero;
* the no-position `consult` query has no ORDER BY; SQLite answers it by an
  index lookup on `categories(name)` followed by a scan of the
  UNIQUE(category_id, fact_id) index, which emits fact ids in ascending
  order; this is modelled as an explicit sort by fact id.
-/

namespace FactStore

/-- A row of the `categories` table. -/
structure Category where
  id : Nat
  name : String
deriving Repr, DecidableEq

/-- A row of the `facts` table. -/
structure Fact where
  id : Nat
  name : String
deriving Repr, DecidableEq

/-- A row of the `entries` table: the membership link between a fact and a
category, UNIQUE on (category_id, fact_id). -/
structure Entry where
  id : Nat
  category_id : Nat
  fact_id : Nat
deriving Repr, DecidableEq

/-- The visible database state; rows are listed in insertion order and the
`next‥Id` fields are the AUTOINCREMENT counters (ids are never reused). -/
structure DB where
  categories : List Category
  facts : List Fact
  entries : List Entry
  nextCategoryId : Nat
  nextFactId : Nat
  nextEntryId : Nat
deriving Repr, DecidableEq

/-- Freshly created schema: empty tables, AUTOINCREMENT starting at 1. -/
def emptyDB : DB := ⟨[], [], [], 1, 1, 1⟩

/-- Typed failures raised by the adapter: `DuplicateException`, the
IndexError escaping `remove_fact`'s `consult(...)[0]` (the NotFound of the
spec), and the driver-level ProgrammingError of mysql.connector. -/
inductive Err where
  | duplicate
  | notFound
  | programmingError
deriving Repr, DecidableEq

/-- Scalar subquery SELECT ‥ FROM categories WHERE name == ?. -/
def findCategory (db : DB) (name : String) : Option Category :=
  db.categories.find? (fun c => c.name == name)

/-- Scalar subquery SELECT ‥ FROM facts WHERE name == ?. -/
def findFact (db : DB) (name : String) : Option Fact :=
  db.facts.find? (fun f => f.name == name)

/-- SQLite3Adapter.add_category: INSERT INTO categories(name) VALUES (?);
violating UNIQUE(name) raises IntegrityError, surfaced as
DuplicateException; nothing is written in that case. -/
def add_category (db : DB) (category : String) : DB × Option Err :=
  if db.categories.any (fun c => c.name == category) then
    (db, some .duplicate)
  else
    ({ db with
        categories := db.categories ++ [⟨db.nextCategoryId, category⟩],
        nextCategoryId := db.nextCategoryId + 1 }, none)

/-- SQLite3Adapter._add_fact: INSERT INTO facts(name) VALUES (?); violating
UNIQUE(name) raises IntegrityError (swallowed by add_fact). -/
def insertFactRow (db : DB) (fact : String) : DB × Option Err :=
  if db.facts.any (fun f => f.name == fact) then
    (db, some .duplicate)
  else
    ({ db with
        facts := db.facts ++ [⟨db.nextFactId, fact⟩],
        nextFactId := db.nextFactId + 1 }, none)

/-- First two phases of add_fact: the `self.add_category(category)` loop with
DuplicateException swallowed. -/
def ensureCategories (db : DB) (categories : List String) : DB :=
  categories.foldl (fun d c => (add_category d c).1) db

/-- One `INSERT INTO entries(fact_id, category_id) SELECT ‥` statement: it
inserts one row per (facts.name = fact, categories.name = category) match —
zero rows when either name is absent, which is not an error — and raises
IntegrityError (`none`) when UNIQUE(category_id, fact_id) is violated. -/
def insertEntry (facts : List Fact) (cats : List Category) (es : List Entry)
    (nid : Nat) (fact category : String) : Option (List Entry × Nat) :=
  match facts.find? (fun f => f.name == fact),
        cats.find? (fun c => c.name == category) with
  | some f, some c =>
    if es.any (fun e => e.category_id == c.id && e.fact_id == f.id) then
      none
    else
      some (es ++ [⟨nid, c.id, f.id⟩], nid + 1)
  | _, _ => some (es, nid)

/-- The entry-insertion loop of add_fact, executed inside one transaction;
`none` is the IntegrityError that rolls the whole block back. -/
def insertEntries (db : DB) (fact : String) :
    List String → List Entry → Nat → Option (List Entry × Nat)
  | [], es, nid => some (es, nid)
  | c :: cs, es, nid =>
    match insertEntry db.facts db.categories es nid fact c with
    | none => none
    | some (es', nid') => insertEntries db fact cs es' nid'

/-- SQLite3Adapter.add_fact: insert the fact row (IntegrityError swallowed),
ensure each category (DuplicateException swallowed), then insert all entries
inside one `with self._connection` transaction.  An IntegrityError there
rolls the entry insertions back — the committed fact/category rows persist —
and is re-raised as DuplicateException. -/
def add_fact (db : DB) (fact : String) (categories : List String) :
    DB × Option Err :=
  let db1 := (insertFactRow db fact).1
  let db2 := ensureCategories db1 categories
  match insertEntries db2 fact categories db2.entries db2.nextEntryId with
  | none => (db2, some .duplicate)
  | some (es, nid) => ({ db2 with entries := es, nextEntryId := nid }, none)

/-- The state of add_fact after its two committed phases (fact row and
category rows), on which the entry-insert transaction runs. -/
def phase2 (db : DB) (fact : String) (categories : List String) : DB :=
  ensureCategories (insertFactRow db fact).1 categories

/-- Insertion into a list kept in ascending order. -/
def insertSorted (n : Nat) : List Nat → List Nat
  | [] => [n]
  | m :: ms => if n ≤ m then n :: m :: ms else m :: insertSorted n ms

/-- Ascending sort of a list of ids. -/
def sortNat (l : List Nat) : List Nat := l.foldr insertSorted []

/-- Fact ids linked to the named category (the join of the consult query,
before ordering). -/
def categoryFactIds (db : DB) (category : String) : List Nat :=
  match findCategory db category with
  | none => []
  | some c =>
    (db.entries.filter (fun e => e.category_id == c.id)).map (fun e => e.fact_id)

/-- Rowid lookup facts.id = fid, projecting the name. -/
def lookupFactName (db : DB) (fid : Nat) : Option String :=
  (db.facts.find? (fun f => f.id == fid)).map (fun f => f.name)

/-- A fact row is linked to the named category: some entry joins it to a
category row carrying that name (the WHERE clause of the consult query,
stated per fact). -/
def inCategory (db : DB) (category : String) (fa : Fact) : Bool :=
  db.entries.any (fun e => e.fact_id == fa.id &&
    db.categories.any (fun ca => ca.name == category && e.category_id == ca.id))

/-- SQLite3Adapter.consult: the three-table join, rows in ascending fact-id
order (see the module comment for the no-ORDER-BY branch); with a position,
ORDER BY facts.id ASC LIMIT 1 OFFSET position-1, a negative OFFSET acting
as zero (`Int.toNat`). -/
def consult (db : DB) (category : String) (fact_position : Option Int) :
    List String :=
  let rows := (sortNat (categoryFactIds db category)).filterMap (lookupFactName db)
  match fact_position with
  | none => rows
  | some p => (rows.drop (p - 1).toNat).take 1

/-- The WHERE clause of remove_fact's DELETE: the entry links the resolved
fact and category. -/
def entryHit (f : Fact) (c : Category) (e : Entry) : Bool :=
  e.fact_id == f.id && e.category_id == c.id

/-- SQLite3Adapter.remove_fact: `consult(category, line_number)[0]` raises
IndexError on an empty result (the store's NotFound, state untouched);
otherwise one DELETE on entries scoped by the two scalar subqueries, after
which the TG_DELETE_FACTS trigger deletes any fact referenced by a deleted
row and left with no remaining entries. -/
def remove_fact (db : DB) (category : String) (line_number : Int) :
    DB × Option Err :=
  match consult db category (some line_number) with
  | [] => (db, some .notFound)
  | fact_name :: _ =>
    match findFact db fact_name, findCategory db category with
    | some f, some c =>
      ({ db with
          entries := db.entries.filter (fun e => !(entryHit f c e)),
          facts := db.facts.filter (fun fa =>
            !((db.entries.filter (entryHit f c)).any
                (fun e => e.fact_id == fa.id) &&
              !((db.entries.filter (fun e => !(entryHit f c e))).any
                  (fun e => e.fact_id == fa.id)))) },
       none)
    | _, _ => (db, none)

/-- SQLite3Adapter.remove_category: DELETE FROM categories WHERE name == ?.
Foreign keys are not enabled on the connection, so the ON DELETE CASCADE on
entries does not run and no entry or fact row is touched; deleting a
missing category is a no-op, not an error. -/
def remove_category (db : DB) (category : String) : DB × Option Err :=
  ({ db with
      categories := db.categories.filter (fun c => !(c.name == category)) },
   none)

/-- SQLite LIKE pattern matching (default settings, no ESCAPE clause):
percent matches any character sequence, underscore any single character,
and every other character compares ASCII-case-insensitively. -/
def likeMatch : List Char → List Char → Bool
  | [], s => s.isEmpty
  | p :: ps, s =>
    if p = '%' then
      s.tails.any (fun t => likeMatch ps t)
    else
      match s with
      | [] => false
      | c :: cs =>
        (if p = '_' then true else p.toLower == c.toLower) && likeMatch ps cs

/-- SQLite3Adapter.search: SELECT name FROM facts WHERE name LIKE ? with the
pattern wrapped in percent signs; rows come out in facts-table order. -/
def search (db : DB) (pattern : String) : List String :=
  (db.facts.filter
    (fun f => likeMatch ('%' :: (pattern.data ++ ['%'])) f.name.data)).map
    (fun f => f.name)

/-- SQLite3Adapter.list_categories: SELECT name FROM categories. -/
def list_categories (db : DB) : List String :=
  db.categories.map (fun c => c.name)

/-- An Entry for (fact, category) already exists: the condition under which
the entry-insert of add_fact hits UNIQUE(category_id, fact_id). -/
def entryExists (db : DB) (fact category : String) : Prop :=
  ∃ e ∈ db.entries, ∃ f ∈ db.facts, ∃ c ∈ db.categories,
    f.name = fact ∧ c.name = category ∧ e.fact_id = f.id ∧ e.category_id = c.id

/-- Pairwise distinctness of category rows (unique names, unique ids). -/
def catPW (l : List Category) : Prop :=
  l.Pairwise (fun a b => a.name ≠ b.name ∧ a.id ≠ b.id)

/-- Pairwise distinctness of fact rows: unique names and strictly
increasing ids (facts are appended in creation order). -/
def factPW (l : List Fact) : Prop :=
  l.Pairwise (fun a b => a.name ≠ b.name ∧ a.id < b.id)

/-- The UNIQUE(category_id, fact_id) constraint on the entries table. -/
def entryPW (l : List Entry) : Prop :=
  l.Pairwise (fun a b => ¬(a.category_id = b.category_id ∧ a.fact_id = b.fact_id))

/-- Well-formedness of a database state, as maintained by the schema:
unique category names and ids, unique fact names and ids with the facts
table in ascending id (creation) order, the UNIQUE(category_id, fact_id)
constraint on entries, AUTOINCREMENT counters above every live or ever-used
id, and every entry referencing an existing fact (facts are only deleted by
the trigger once no entry references them). -/
def WF (db : DB) : Prop :=
  catPW db.categories ∧
  factPW db.facts ∧
  entryPW db.entries ∧
  (∀ c ∈ db.categories, c.id < db.nextCategoryId) ∧
  (∀ f ∈ db.facts, f.id < db.nextFactId) ∧
  (∀ e ∈ db.entries, e.category_id < db.nextCategoryId ∧
    e.fact_id < db.nextFactId) ∧
  (∀ e ∈ db.entries, ∃ f ∈ db.facts, f.id = e.fact_id)

/-- No fact row is left without any entry referencing it (the orphan-cleanup
invariant claimed by the spec). -/
def noOrphan (db : DB) : Prop :=
  ∀ f ∈ db.facts, ∃ e ∈ db.entries, e.fact_id = f.id

instance (db : DB) (fact category : String) :
    Decidable (entryExists db fact category) := by
  unfold entryExists; infer_instance

instance (db : DB) : Decidable (WF db) := by
  unfold WF catPW factPW entryPW; infer_instance

instance (db : DB) : Decidable (noOrphan db) := by
  unfold noOrphan; infer_instance

/-- The string p occurs as a (case-sensitive) contiguous substring of s. -/
def containsSubstring (p s : String) : Prop :=
  ∃ l r, s.data = l ++ p.data ++ r

/-- The string p occurs as an ASCII-case-insensitive contiguous substring
of s. -/
def ciContains (p s : String) : Prop :=
  ∃ l r, s.data.map Char.toLower = l ++ p.data.map Char.toLower ++ r

end FactStore

namespace FactStoreMySQL

open FactStore

/-- MySQLAdapter.consult: the same three-table join; without a position the
rows come back in join order (modelled as entry order).  The positional
branch appends "ORDER BY facts.id ASC LIMIT 1 OFFSET ?" to a statement
parameterised with %s placeholders and then passes two parameters for the
single %s placeholder, so mysql.connector raises ProgrammingError (not all
parameters were consumed) before anything reaches the server. -/
def consult (db : DB) (category : String) (fact_position : Option Int) :
    Except Err (List String) :=
  match fact_position with
  | none => .ok ((categoryFactIds db category).filterMap (lookupFactName db))
  | some _ => .error .programmingError

end FactStoreMySQL

namespace FactStore

theorem insertSorted_perm (n : Nat) : ∀ l : List Nat, List.Perm (insertSorted n l) (n :: l)
  | [] => List.Perm.refl _
  | m :: ms => by
    unfold insertSorted
    split
    · exact List.Perm.refl _
    · exact ((insertSorted_perm n ms).cons m).trans (List.Perm.swap n m ms)

theorem sortNat_perm : ∀ l : List Nat, List.Perm (sortNat l) l
  | [] => List.Perm.refl _
  | n :: ns => by
    show List.Perm (insertSorted n (sortNat ns)) (n :: ns)
    exact (insertSorted_perm n (sortNat ns)).trans ((sortNat_perm ns).cons n)

theorem insertSorted_sorted (n : Nat) :
    ∀ {l : List Nat}, l.Pairwise (· ≤ ·) → (insertSorted n l).Pairwise (· ≤ ·) := by
  intro l
  induction l with
  | nil => intro _; simp [insertSorted]
  | cons m ms ih =>
    intro h
    rw [List.pairwise_cons] at h
    unfold insertSorted
    split
    · rename_i hnm
      rw [List.pairwise_cons]
      refine ⟨?_, List.pairwise_cons.mpr h⟩
      intro x hx
      rcases List.mem_cons.mp hx with rfl | hx
      · exact hnm
      · exact Nat.le_trans hnm (h.1 x hx)
    · rename_i hnm
      rw [List.pairwise_cons]
      refine ⟨?_, ih h.2⟩
      intro x hx
      have hx' := (insertSorted_perm n ms).mem_iff.mp hx
      rcases List.mem_cons.mp hx' with rfl | hx'
      · omega
      · exact h.1 x hx'

theorem sortNat_sorted : ∀ l : List Nat, (sortNat l).Pairwise (· ≤ ·)
  | [] => by simp [sortNat]
  | n :: ns => insertSorted_sorted n (sortNat_sorted ns)

/-- On a list whose rows have pairwise-distinct keys, find? by the key of
a member returns that member (uniqueness of UNIQUE-indexed lookups). -/
theorem find?_proj_eq_some {α β : Type} [DecidableEq β] (key : α → β)
    (l : List α) (hnd : l.Pairwise (fun a b => key a ≠ key b))
    {f : α} (hf : f ∈ l) {x : β} (hx : key f = x) :
    l.find? (fun g => key g == x) = some f := by
  induction l with
  | nil => cases hf
  | cons a as ih =>
    rw [List.pairwise_cons] at hnd
    rcases List.mem_cons.mp hf with rfl | hf'
    · exact List.find?_cons_of_pos _ (by simp [hx])
    · have hne : key a ≠ x := hx ▸ hnd.1 f hf'
      rw [List.find?_cons_of_neg _ (by simpa using hne)]
      exact ih hnd.2 hf'

theorem add_category_facts (db : DB) (c : String) :
    (add_category db c).1.facts = db.facts ∧
    (add_category db c).1.entries = db.entries ∧
    (add_category db c).1.nextFactId = db.nextFactId ∧
    (add_category db c).1.nextEntryId = db.nextEntryId := by
  unfold add_category; split <;> simp

theorem add_category_categories (db : DB) (c : String) :
    ∃ extra, (add_category db c).1.categories = db.categories ++ extra ∧
      (add_category db c).1.nextCategoryId = db.nextCategoryId + extra.length ∧
      (∀ ca ∈ extra, ca.id = db.nextCategoryId ∧ ca.name = c) ∧
      (∃ ca ∈ (add_category db c).1.categories, ca.name = c) := by
  unfold add_category; split
  · rename_i hany
    rcases List.any_eq_true.mp hany with ⟨ca, hca, hname⟩
    exact ⟨[], by simp, by simp, by simp,
      ⟨ca, by simpa using hca, by simpa using hname⟩⟩
  · refine ⟨[⟨db.nextCategoryId, c⟩], by simp, by simp, by simp, ?_⟩
    exact ⟨⟨db.nextCategoryId, c⟩, by simp, rfl⟩

theorem add_category_wf (db : DB) (c : String) (h : WF db) :
    WF (add_category db c).1 := by
  obtain ⟨h1, h2, h3, h4, h5, h6, h7⟩ := h
  unfold add_category; split
  · exact ⟨h1, h2, h3, h4, h5, h6, h7⟩
  · rename_i hany
    have hnem : ∀ ca ∈ db.categories, ca.name ≠ c := by
      intro ca hca hn
      exact hany (List.any_eq_true.mpr ⟨ca, hca, by simp [hn]⟩)
    refine ⟨?_, h2, h3, ?_, h5, ?_, h7⟩
    · rw [catPW, List.pairwise_append]
      refine ⟨h1, by simp, ?_⟩
      intro a ha b hb
      have hbe : b = ⟨db.nextCategoryId, c⟩ := by simpa using hb
      subst hbe
      exact ⟨hnem a ha, Nat.ne_of_lt (h4 a ha)⟩
    · intro ca hca
      rcases List.mem_append.mp hca with hca | hca
      · exact Nat.lt_succ_of_lt (h4 ca hca)
      · have : ca = ⟨db.nextCategoryId, c⟩ := by simpa using hca
        subst this
        exact Nat.lt_succ_self _
    · intro e he
      exact ⟨Nat.lt_succ_of_lt (h6 e he).1, (h6 e he).2⟩

theorem insertFactRow_cats (db : DB) (f : String) :
    (insertFactRow db f).1.categories = db.categories ∧
    (insertFactRow db f).1.entries = db.entries ∧
    (insertFactRow db f).1.nextCategoryId = db.nextCategoryId ∧
    (insertFactRow db f).1.nextEntryId = db.nextEntryId := by
  unfold insertFactRow; split <;> simp

theorem insertFactRow_facts (db : DB) (f : String) :
    ∃ extra, (insertFactRow db f).1.facts = db.facts ++ extra ∧
      (insertFactRow db f).1.nextFactId = db.nextFactId + extra.length ∧
      (∀ fa ∈ extra, fa.id = db.nextFactId ∧ fa.name = f) ∧
      (∃ fa ∈ (insertFactRow db f).1.facts, fa.name = f) := by
  unfold insertFactRow; split
  · rename_i hany
    rcases List.any_eq_true.mp hany with ⟨fa, hfa, hname⟩
    exact ⟨[], by simp, by simp, by simp,
      ⟨fa, by simpa using hfa, by simpa using hname⟩⟩
  · refine ⟨[⟨db.nextFactId, f⟩], by simp, by simp, by simp, ?_⟩
    exact ⟨⟨db.nextFactId, f⟩, by simp, rfl⟩

theorem insertFactRow_wf (db : DB) (f : String) (h : WF db) :
    WF (insertFactRow db f).1 := by
  obtain ⟨h1, h2, h3, h4, h5, h6, h7⟩ := h
  unfold insertFactRow; split
  · exact ⟨h1, h2, h3, h4, h5, h6, h7⟩
  · rename_i hany
    have hnem : ∀ fa ∈ db.facts, fa.name ≠ f := by
      intro fa hfa hn
      exact hany (List.any_eq_true.mpr ⟨fa, hfa, by simp [hn]⟩)
    refine ⟨h1, ?_, h3, h4, ?_, ?_, ?_⟩
    · rw [factPW, List.pairwise_append]
      refine ⟨h2, by simp, ?_⟩
      intro a ha b hb
      have hbe : b = ⟨db.nextFactId, f⟩ := by simpa using hb
      subst hbe
      exact ⟨hnem a ha, h5 a ha⟩
    · intro fa hfa
      rcases List.mem_append.mp hfa with hfa | hfa
      · exact Nat.lt_succ_of_lt (h5 fa hfa)
      · have : fa = ⟨db.nextFactId, f⟩ := by simpa using hfa
        subst this
        exact Nat.lt_succ_self _
    · intro e he
      exact ⟨(h6 e he).1, Nat.lt_succ_of_lt (h6 e he).2⟩
    · intro e he
      rcases h7 e he with ⟨fa, hfa, hid⟩
      exact ⟨fa, List.mem_append_left _ hfa, hid⟩

theorem ensureCategories_nil (db : DB) : ensureCategories db [] = db := rfl

theorem ensureCategories_cons (db : DB) (c : String) (cs : List String) :
    ensureCategories db (c :: cs) = ensureCategories (add_category db c).1 cs :=
  rfl

theorem ensureCategories_others (db : DB) (cs : List String) :
    (ensureCategories db cs).facts = db.facts ∧
    (ensureCategories db cs).entries = db.entries ∧
    (ensureCategories db cs).nextFactId = db.nextFactId ∧
    (ensureCategories db cs).nextEntryId = db.nextEntryId := by
  induction cs generalizing db with
  | nil => exact ⟨rfl, rfl, rfl, rfl⟩
  | cons c cs ih =>
    rw [ensureCategories_cons]
    obtain ⟨a1, a2, a3, a4⟩ := add_category_facts db c
    obtain ⟨b1, b2, b3, b4⟩ := ih (add_category db c).1
    exact ⟨b1.trans a1, b2.trans a2, b3.trans a3, b4.trans a4⟩

theorem ensureCategories_extends (db : DB) (cs : List String) :
    ∃ extra, (ensureCategories db cs).categories = db.categories ++ extra ∧
      (ensureCategories db cs).nextCategoryId =
        db.nextCategoryId + extra.length ∧
      (∀ ca ∈ extra, db.nextCategoryId ≤ ca.id ∧ ca.name ∈ cs) := by
  induction cs generalizing db with
  | nil => exact ⟨[], by simp [ensureCategories_nil]⟩
  | cons c cs ih =>
    rw [ensureCategories_cons]
    obtain ⟨e1, h1, h2, h3, _⟩ := add_category_categories db c
    obtain ⟨e2, g1, g2, g3⟩ := ih (add_category db c).1
    refine ⟨e1 ++ e2, by rw [g1, h1, List.append_assoc], ?_, ?_⟩
    · rw [g2, h2]; simp [Nat.add_assoc]
    · intro ca hca
      rcases List.mem_append.mp hca with hca | hca
      · exact ⟨Nat.le_of_eq (h3 ca hca).1.symm, by simp [(h3 ca hca).2]⟩
      · refine ⟨?_, List.mem_cons_of_mem c (g3 ca hca).2⟩
        have := (g3 ca hca).1
        omega

theorem ensureCategories_mem (db : DB) (cs : List String) :
    ∀ c ∈ cs, ∃ ca ∈ (ensureCategories db cs).categories, ca.name = c := by
  induction cs generalizing db with
  | nil => intro c hc; cases hc
  | cons c0 cs ih =>
    intro c hc
    rw [ensureCategories_cons]
    rcases List.mem_cons.mp hc with rfl | hc'
    · obtain ⟨_, _, _, _, ca, hca, hname⟩ := add_category_categories db c
      obtain ⟨extra, hext, _, _⟩ := ensureCategories_extends (add_category db c).1 cs
      exact ⟨ca, hext ▸ List.mem_append_left _ hca, hname⟩
    · exact ih (add_category db c0).1 c hc'

theorem ensureCategories_wf (db : DB) (cs : List String) (h : WF db) :
    WF (ensureCategories db cs) := by
  induction cs generalizing db with
  | nil => exact h
  | cons c cs ih =>
    rw [ensureCategories_cons]
    exact ih (add_category db c).1 (add_category_wf db c h)

theorem add_fact_eq (db : DB) (f : String) (cs : List String) :
    add_fact db f cs =
      match insertEntries (phase2 db f cs) f cs (phase2 db f cs).entries
        (phase2 db f cs).nextEntryId with
      | none => (phase2 db f cs, some Err.duplicate)
      | some (es, nid) =>
        ({ phase2 db f cs with entries := es, nextEntryId := nid }, none) :=
  rfl

theorem phase2_wf (db : DB) (f : String) (cs : List String) (h : WF db) :
    WF (phase2 db f cs) :=
  ensureCategories_wf _ cs (insertFactRow_wf db f h)

theorem phase2_entries (db : DB) (f : String) (cs : List String) :
    (phase2 db f cs).entries = db.entries ∧
    (phase2 db f cs).nextEntryId = db.nextEntryId := by
  obtain ⟨_, h2, _, h4⟩ := ensureCategories_others (insertFactRow db f).1 cs
  obtain ⟨_, g2, _, g4⟩ := insertFactRow_cats db f
  exact ⟨h2.trans g2, h4.trans g4⟩

theorem add_fact_err (db : DB) (f : String) (cs : List String) {e : Err}
    (h : (add_fact db f cs).2 = some e) :
    e = Err.duplicate ∧ (add_fact db f cs).1 = phase2 db f cs ∧
    insertEntries (phase2 db f cs) f cs (phase2 db f cs).entries
      (phase2 db f cs).nextEntryId = none := by
  rw [add_fact_eq] at h ⊢
  cases hie : insertEntries (phase2 db f cs) f cs (phase2 db f cs).entries
      (phase2 db f cs).nextEntryId with
  | none =>
    rw [hie] at h
    exact ⟨by simpa using h.symm, rfl, rfl⟩
  | some p =>
    rw [hie] at h
    simp at h

theorem add_fact_ok (db : DB) (f : String) (cs : List String)
    (h : (add_fact db f cs).2 = none) :
    ∃ es nid,
      insertEntries (phase2 db f cs) f cs (phase2 db f cs).entries
        (phase2 db f cs).nextEntryId = some (es, nid) ∧
      (add_fact db f cs).1 =
        { phase2 db f cs with entries := es, nextEntryId := nid } := by
  rw [add_fact_eq] at h ⊢
  cases hie : insertEntries (phase2 db f cs) f cs (phase2 db f cs).entries
      (phase2 db f cs).nextEntryId with
  | none =>
    rw [hie] at h
    simp at h
  | some p => exact ⟨p.1, p.2, rfl, rfl⟩

theorem insertEntries_nil (db : DB) (f : String) (es : List Entry) (nid : Nat) :
    insertEntries db f [] es nid = some (es, nid) := rfl

theorem insertEntries_cons (db : DB) (f c : String) (cs : List String)
    (es : List Entry) (nid : Nat) :
    insertEntries db f (c :: cs) es nid =
      match insertEntry db.facts db.categories es nid f c with
      | none => none
      | some (es1, nid1) => insertEntries db f cs es1 nid1 := rfl

theorem insertEntry_spec (facts : List Fact) (cats : List Category)
    (es : List Entry) (nid : Nat) (f c : String) {es1 : List Entry}
    {nid1 : Nat} (h : insertEntry facts cats es nid f c = some (es1, nid1)) :
    (es1 = es ∧ nid1 = nid ∧
      (facts.find? (fun g => g.name == f) = none ∨
       cats.find? (fun g => g.name == c) = none)) ∨
    (nid1 = nid + 1 ∧ ∃ fr cr,
      facts.find? (fun g => g.name == f) = some fr ∧
      cats.find? (fun g => g.name == c) = some cr ∧
      es1 = es ++ [⟨nid, cr.id, fr.id⟩] ∧
      ∀ e ∈ es, ¬(e.category_id = cr.id ∧ e.fact_id = fr.id)) := by
  cases hf : facts.find? (fun g => g.name == f) with
  | none =>
    have hred : insertEntry facts cats es nid f c = some (es, nid) := by
      unfold insertEntry
      rw [hf]
    rw [hred] at h
    simp only [Option.some.injEq, Prod.mk.injEq] at h
    exact .inl ⟨h.1.symm, h.2.symm, .inl rfl⟩
  | some fr =>
    cases hc : cats.find? (fun g => g.name == c) with
    | none =>
      have hred : insertEntry facts cats es nid f c = some (es, nid) := by
        unfold insertEntry
        rw [hf, hc]
      rw [hred] at h
      simp only [Option.some.injEq, Prod.mk.injEq] at h
      exact .inl ⟨h.1.symm, h.2.symm, .inr rfl⟩
    | some cr =>
      have hred : insertEntry facts cats es nid f c =
          if es.any (fun e => e.category_id == cr.id && e.fact_id == fr.id)
          then none
          else some (es ++ [⟨nid, cr.id, fr.id⟩], nid + 1) := by
        unfold insertEntry
        rw [hf, hc]
      rw [hred] at h
      split at h
      · simp at h
      · rename_i hany
        simp only [Option.some.injEq, Prod.mk.injEq] at h
        refine .inr ⟨h.2.symm, fr, cr, rfl, rfl, h.1.symm, ?_⟩
        intro e he hpair
        exact hany (List.any_eq_true.mpr ⟨e, he, by simp [hpair.1, hpair.2]⟩)

theorem insertEntries_spec (db : DB) (f : String) :
    ∀ (cs : List String) (es : List Entry) (nid : Nat) {es' : List Entry}
      {nid' : Nat},
    insertEntries db f cs es nid = some (es', nid') →
    ∃ extra, es' = es ++ extra ∧
      ∀ e ∈ extra,
        (∃ fr ∈ db.facts, fr.name = f ∧ e.fact_id = fr.id) ∧
        (∃ c ∈ cs, ∃ cr ∈ db.categories, cr.name = c ∧
          e.category_id = cr.id) := by
  intro cs
  induction cs with
  | nil =>
    intro es nid es' nid' h
    rw [insertEntries_nil] at h
    simp only [Option.some.injEq, Prod.mk.injEq] at h
    exact ⟨[], by simp [h.1], by simp⟩
  | cons c cs ih =>
    intro es nid es' nid' h
    rw [insertEntries_cons] at h
    cases hi : insertEntry db.facts db.categories es nid f c with
    | none => rw [hi] at h; simp at h
    | some p =>
      rw [hi] at h
      obtain ⟨es1, nid1⟩ := p
      obtain ⟨extra2, hx1, hx2⟩ := ih es1 nid1 h
      rcases insertEntry_spec _ _ _ _ _ _ hi with ⟨he, _, _⟩ |
        ⟨_, fr, cr, hf', hc', he, _⟩
      · subst he
        refine ⟨extra2, hx1, ?_⟩
        intro e hee
        obtain ⟨g1, g2⟩ := hx2 e hee
        obtain ⟨c', hc', rest⟩ := g2
        exact ⟨g1, c', List.mem_cons_of_mem c hc', rest⟩
      · subst he
        refine ⟨⟨nid, cr.id, fr.id⟩ :: extra2, by rw [hx1, List.append_assoc]; rfl, ?_⟩
        intro e hee
        rcases List.mem_cons.mp hee with rfl | hee
        · refine ⟨⟨fr, List.mem_of_find?_eq_some hf', ?_, rfl⟩,
            c, List.mem_cons_self c cs, cr, List.mem_of_find?_eq_some hc', ?_, rfl⟩
          · simpa using List.find?_some hf'
          · simpa using List.find?_some hc'
        · obtain ⟨g1, g2⟩ := hx2 e hee
          obtain ⟨c', hcm, rest⟩ := g2
          exact ⟨g1, c', List.mem_cons_of_mem c hcm, rest⟩

theorem insertEntries_entryPW (db : DB) (f : String) :
    ∀ (cs : List String) (es : List Entry) (nid : Nat) {es' : List Entry}
      {nid' : Nat},
    insertEntries db f cs es nid = some (es', nid') →
    entryPW es → entryPW es' := by
  intro cs
  induction cs with
  | nil =>
    intro es nid es' nid' h hp
    rw [insertEntries_nil] at h
    simp only [Option.some.injEq, Prod.mk.injEq] at h
    exact h.1 ▸ hp
  | cons c cs ih =>
    intro es nid es' nid' h hp
    rw [insertEntries_cons] at h
    cases hi : insertEntry db.facts db.categories es nid f c with
    | none => rw [hi] at h; simp at h
    | some p =>
      rw [hi] at h
      obtain ⟨es1, nid1⟩ := p
      rcases insertEntry_spec _ _ _ _ _ _ hi with ⟨he, _, _⟩ |
        ⟨_, fr, cr, _, _, he, hnc⟩
      · exact ih es1 nid1 h (he ▸ hp)
      · refine ih es1 nid1 h ?_
        subst he
        unfold entryPW at hp ⊢
        rw [List.pairwise_append]
        refine ⟨hp, by simp, ?_⟩
        intro a ha b hb
        have hbe : b = ⟨nid, cr.id, fr.id⟩ := by simpa using hb
        subst hbe
        simpa using hnc a ha

theorem insertEntries_conflict (db : DB) (f : String) (fr : Fact)
    (hfr : db.facts.find? (fun g => g.name == f) = some fr) :
    ∀ (cs : List String) (es : List Entry) (nid : Nat) (c : String)
      (cr : Category),
    c ∈ cs →
    db.categories.find? (fun g => g.name == c) = some cr →
    (∃ e ∈ es, e.category_id = cr.id ∧ e.fact_id = fr.id) →
    insertEntries db f cs es nid = none := by
  intro cs
  induction cs with
  | nil => intro es nid c cr hc; cases hc
  | cons c0 cs ih =>
    intro es nid c cr hc hcr hconf
    rw [insertEntries_cons]
    rcases List.mem_cons.mp hc with rfl | hc'
    · have hany : es.any
          (fun e => e.category_id == cr.id && e.fact_id == fr.id) = true := by
        rcases hconf with ⟨e, he, h1, h2⟩
        exact List.any_eq_true.mpr ⟨e, he, by simp [h1, h2]⟩
      have hie : insertEntry db.facts db.categories es nid f c = none := by
        unfold insertEntry
        rw [hfr, hcr]
        simp [hany]
      rw [hie]
    · cases hi : insertEntry db.facts db.categories es nid f c0 with
      | none => rfl
      | some p =>
        obtain ⟨es1, nid1⟩ := p
        have hsub : ∀ e ∈ es, e ∈ es1 := by
          rcases insertEntry_spec _ _ _ _ _ _ hi with ⟨he, _, _⟩ |
            ⟨_, _, _, _, _, he, _⟩ <;>
            · subst he; intro e hee; simp [hee]
        rcases hconf with ⟨e, he, hh⟩
        exact ih es1 nid1 c cr hc' hcr ⟨e, hsub e he, hh⟩

theorem insertEntries_head_mem (db : DB) (f c0 : String) (cs : List String)
    (es : List Entry) (nid : Nat) {es' : List Entry} {nid' : Nat} (fr : Fact)
    (hfr : db.facts.find? (fun g => g.name == f) = some fr) (cr : Category)
    (hcr : db.categories.find? (fun g => g.name == c0) = some cr)
    (h : insertEntries db f (c0 :: cs) es nid = some (es', nid')) :
    ∃ e ∈ es', e.fact_id = fr.id := by
  rw [insertEntries_cons] at h
  cases hi : insertEntry db.facts db.categories es nid f c0 with
  | none => rw [hi] at h; simp at h
  | some p =>
    rw [hi] at h
    obtain ⟨es1, nid1⟩ := p
    rcases insertEntry_spec _ _ _ _ _ _ hi with ⟨_, _, hn | hn⟩ |
      ⟨_, fr', cr', hf', hc', he, _⟩
    · rw [hfr] at hn; cases hn
    · rw [hcr] at hn; cases hn
    · have hfe : fr = fr' := by simpa using hfr.symm.trans hf'
      obtain ⟨extra, hex, _⟩ := insertEntries_spec db f cs es1 nid1 h
      refine ⟨⟨nid, cr'.id, fr'.id⟩, ?_, by rw [hfe]⟩
      rw [hex, he]
      simp

/-- Two rows of a pairwise-key-distinct list with the same key are the same
row (uniqueness given a UNIQUE constraint). -/
theorem pairwise_unique {α β : Type} (key : α → β) (l : List α)
    (h : l.Pairwise (fun a b => key a ≠ key b)) {a b : α}
    (ha : a ∈ l) (hb : b ∈ l) (hk : key a = key b) : a = b := by
  induction l with
  | nil => cases ha
  | cons x xs ih =>
    rw [List.pairwise_cons] at h
    rcases List.mem_cons.mp ha with rfl | ha' <;>
      rcases List.mem_cons.mp hb with rfl | hb'
    · rfl
    · exact absurd hk (h.1 b hb')
    · exact absurd hk.symm (h.1 a ha')
    · exact ih h.2 ha' hb'

theorem insertFactRow_branch (db : DB) (f : String) :
    ((∃ fa ∈ db.facts, fa.name = f) ∧ (insertFactRow db f).1 = db) ∨
    ((∀ fa ∈ db.facts, fa.name ≠ f) ∧
      (insertFactRow db f).1 =
        { db with
            facts := db.facts ++ [⟨db.nextFactId, f⟩],
            nextFactId := db.nextFactId + 1 }) := by
  unfold insertFactRow
  split
  · rename_i hany
    rcases List.any_eq_true.mp hany with ⟨fa, hfa, hn⟩
    exact .inl ⟨⟨fa, hfa, by simpa using hn⟩, rfl⟩
  · rename_i hany
    refine .inr ⟨?_, rfl⟩
    intro fa hfa hn
    exact hany (List.any_eq_true.mpr ⟨fa, hfa, by simp [hn]⟩)

theorem add_category_branch (db : DB) (c : String) :
    ((∃ ca ∈ db.categories, ca.name = c) ∧ (add_category db c).1 = db) ∨
    ((∀ ca ∈ db.categories, ca.name ≠ c) ∧
      (add_category db c).1 =
        { db with
            categories := db.categories ++ [⟨db.nextCategoryId, c⟩],
            nextCategoryId := db.nextCategoryId + 1 }) := by
  unfold add_category
  split
  · rename_i hany
    rcases List.any_eq_true.mp hany with ⟨ca, hca, hn⟩
    exact .inl ⟨⟨ca, hca, by simpa using hn⟩, rfl⟩
  · rename_i hany
    refine .inr ⟨?_, rfl⟩
    intro ca hca hn
    exact hany (List.any_eq_true.mpr ⟨ca, hca, by simp [hn]⟩)

theorem insertFactRow_of_present (db : DB) (f : String)
    (h : ∃ fa ∈ db.facts, fa.name = f) : (insertFactRow db f).1 = db := by
  rcases insertFactRow_branch db f with ⟨_, he⟩ | ⟨hno, _⟩
  · exact he
  · rcases h with ⟨fa, hfa, hn⟩
    exact absurd hn (hno fa hfa)

theorem insertEntry_of_no_conflict (facts : List Fact) (cats : List Category)
    (es : List Entry) (nid : Nat) (f c : String) (fr : Fact) (cr : Category)
    (hf : facts.find? (fun g => g.name == f) = some fr)
    (hc : cats.find? (fun g => g.name == c) = some cr)
    (hno : ∀ e ∈ es, ¬(e.category_id = cr.id ∧ e.fact_id = fr.id)) :
    insertEntry facts cats es nid f c =
      some (es ++ [⟨nid, cr.id, fr.id⟩], nid + 1) := by
  have hany : es.any
      (fun e => e.category_id == cr.id && e.fact_id == fr.id) = false := by
    rw [List.any_eq_false]
    intro e he
    simpa using hno e he
  unfold insertEntry
  rw [hf, hc]
  simp [hany]

theorem categoryFactIds_eq (db : DB) (category : String) (cr : Category)
    (hfind : findCategory db category = some cr) :
    categoryFactIds db category =
      (db.entries.filter (fun e => e.category_id == cr.id)).map
        (fun e => e.fact_id) := by
  unfold categoryFactIds
  rw [hfind]

theorem add_fact_wf (db : DB) (f : String) (cs : List String) (h : WF db) :
    WF (add_fact db f cs).1 := by
  have h2 := phase2_wf db f cs h
  rw [add_fact_eq]
  cases hie : insertEntries (phase2 db f cs) f cs (phase2 db f cs).entries
      (phase2 db f cs).nextEntryId with
  | none => exact h2
  | some p =>
    obtain ⟨es', nid'⟩ := p
    obtain ⟨w1, w2, w3, w4, w5, w6, w7⟩ := h2
    obtain ⟨extra, hex, hprops⟩ :=
      insertEntries_spec (phase2 db f cs) f cs _ _ hie
    have hpw := insertEntries_entryPW (phase2 db f cs) f cs _ _ hie w3
    refine ⟨w1, w2, hpw, w4, w5, ?_, ?_⟩
    · intro e he
      rw [hex] at he
      rcases List.mem_append.mp he with he | he
      · exact w6 e he
      · obtain ⟨⟨fr, hfm, _, hfid⟩, ⟨c', _, cr, hcm, _, hcid⟩⟩ := hprops e he
        exact ⟨hcid ▸ w4 cr hcm, hfid ▸ w5 fr hfm⟩
    · intro e he
      rw [hex] at he
      rcases List.mem_append.mp he with he | he
      · exact w7 e he
      · obtain ⟨⟨fr, hfm, _, hfid⟩, _⟩ := hprops e he
        exact ⟨fr, hfm, hfid.symm⟩

theorem likeMatch_nil (s : List Char) : likeMatch [] s = s.isEmpty := rfl

theorem likeMatch_pct (ps : List Char) (s : List Char) :
    likeMatch ('%' :: ps) s = s.tails.any (fun t => likeMatch ps t) := by
  simp [likeMatch]

theorem likeMatch_all (s : List Char) : likeMatch ['%'] s = true := by
  rw [likeMatch_pct, List.any_eq_true]
  exact ⟨[], (List.mem_tails _ _).mpr ⟨s, by simp⟩, rfl⟩

theorem likeMatch_pct_prefix (ps : List Char) (s1 s2 : List Char)
    (h : likeMatch ps s2 = true) :
    likeMatch ('%' :: ps) (s1 ++ s2) = true := by
  rw [likeMatch_pct, List.any_eq_true]
  exact ⟨s2, (List.mem_tails _ _).mpr ⟨s1, rfl⟩, h⟩

theorem likeMatch_self_pct : ∀ p : List Char, likeMatch (p ++ ['%']) p = true := by
  intro p
  induction p with
  | nil => exact likeMatch_all []
  | cons c cs ih =>
    show likeMatch (c :: (cs ++ ['%'])) (c :: cs) = true
    by_cases hc : c = '%'
    · subst hc
      rw [likeMatch_pct, List.any_eq_true]
      exact ⟨cs, (List.mem_tails _ _).mpr ⟨['%'], rfl⟩, ih⟩
    · simp only [likeMatch, if_neg hc]
      by_cases hu : c = '_' <;> simp [hu, ih]

/-- Every string LIKE-matches the pattern built by wrapping itself in
percent signs (used for search(fact) finding fact). -/
theorem likeMatch_self (s : List Char) :
    likeMatch ('%' :: (s ++ ['%'])) s = true := by
  have := likeMatch_pct_prefix (s ++ ['%']) [] s (likeMatch_self_pct s)
  simpa using this

theorem countP_eq_one_of_key {α β : Type} (key : α → β) (p : α → Bool)
    (l : List α) (hpw : l.Pairwise (fun a b => key a ≠ key b)) (a : α)
    (ha : a ∈ l) (hpa : p a = true)
    (hkey : ∀ b, p b = true → key b = key a) :
    l.countP p = 1 := by
  induction l with
  | nil => cases ha
  | cons y ys ih =>
    rw [List.pairwise_cons] at hpw
    rw [List.countP_cons]
    rcases List.mem_cons.mp ha with rfl | ha'
    · have h0 : ys.countP p = 0 := by
        rw [List.countP_eq_zero]
        intro b hb hpb
        exact hpw.1 b hb (hkey b hpb).symm
      rw [h0, hpa]
      simp
    · have hpy : p y = false := by
        cases hy : p y with
        | false => rfl
        | true => exact absurd (hkey y hy) (hpw.1 a ha')
      rw [hpy, ih hpw.2 ha']
      simp

theorem filterMap_eq_map_of_forall {α β : Type} (l : List α)
    (g : α → Option β) (h : α → β) (hg : ∀ a ∈ l, g a = some (h a)) :
    l.filterMap g = l.map h := by
  induction l with
  | nil => rfl
  | cons y ys ih =>
    have h1 := hg y (List.mem_cons_self y ys)
    simp [List.filterMap_cons, h1,
      ih fun a ha => hg a (List.mem_cons_of_mem y ha)]

/-- C5: consult without a position returns exactly the facts linked to the
category, as the facts-table projection — the facts table being kept in
ascending creation (id) order by WF — so the output is in ascending fact-id
order (second conjunct), and repeated calls on the same store are the same
pure computation. -/
theorem consult_no_position (db : DB) (category : String) (hwf : WF db) :
    consult db category none =
      (db.facts.filter (inCategory db category)).map (fun fa => fa.name) ∧
    List.Pairwise (· < ·)
      ((db.facts.filter (inCategory db category)).map (fun fa => fa.id)) := by
  obtain ⟨hcatPW, hfactPW, hentPW, -, -, -, hrefs⟩ := hwf
  have hidPW : List.Pairwise (· < ·)
      ((db.facts.filter (inCategory db category)).map (fun fa => fa.id)) := by
    rw [List.pairwise_map]
    exact (List.Pairwise.sublist (List.filter_sublist _) hfactPW).imp
      fun h => h.2
  refine ⟨?_, hidPW⟩
  show (sortNat (categoryFactIds db category)).filterMap (lookupFactName db) = _
  cases hfc : findCategory db category with
  | none =>
    have hfids : categoryFactIds db category = [] := by
      unfold categoryFactIds
      rw [hfc]
    have hno := List.find?_eq_none.mp hfc
    have hfilter : db.facts.filter (inCategory db category) = [] := by
      rw [List.filter_eq_nil_iff]
      intro fa hfa hbad
      obtain ⟨e, he, hprop⟩ := List.any_eq_true.mp hbad
      rw [Bool.and_eq_true] at hprop
      obtain ⟨ca, hcam, hcaprop⟩ := List.any_eq_true.mp hprop.2
      rw [Bool.and_eq_true] at hcaprop
      exact hno ca hcam hcaprop.1
    rw [hfids, hfilter]
    rfl
  | some cr =>
    have hcr_mem := List.mem_of_find?_eq_some hfc
    have hcr_name : cr.name = category := by simpa using List.find?_some hfc
    have hfids := categoryFactIds_eq db category cr hfc
    have hfidsPW : List.Pairwise (· ≠ ·) (categoryFactIds db category) := by
      rw [hfids, List.pairwise_map]
      refine List.Pairwise.imp_of_mem ?_
        (List.Pairwise.sublist (List.filter_sublist _) hentPW)
      intro a b ha hb hR heqf
      have ha' : a.category_id = cr.id := by
        simpa using (List.mem_filter.mp ha).2
      have hb' : b.category_id = cr.id := by
        simpa using (List.mem_filter.mp hb).2
      exact hR ⟨ha'.trans hb'.symm, heqf⟩
    have hA_nodup : (sortNat (categoryFactIds db category)).Nodup :=
      ((sortNat_perm _).nodup_iff).mpr hfidsPW
    have hB_nodup : ((db.facts.filter (inCategory db category)).map
        (fun fa => fa.id)).Nodup := hidPW.imp fun h => Nat.ne_of_lt h
    have hmem : ∀ x, x ∈ sortNat (categoryFactIds db category) ↔
        x ∈ (db.facts.filter (inCategory db category)).map
          (fun fa => fa.id) := by
      intro x
      rw [(sortNat_perm _).mem_iff, hfids]
      constructor
      · intro hx
        obtain ⟨e, he, hxe⟩ := List.mem_map.mp hx
        have hef := List.mem_filter.mp he
        obtain ⟨fa, hfam, hfid⟩ := hrefs e hef.1
        refine List.mem_map.mpr ⟨fa, List.mem_filter.mpr ⟨hfam, ?_⟩, by
          rw [hfid, hxe]⟩
        refine List.any_eq_true.mpr ⟨e, hef.1, ?_⟩
        simp only [Bool.and_eq_true, beq_iff_eq]
        refine ⟨hfid.symm, List.any_eq_true.mpr ⟨cr, hcr_mem, ?_⟩⟩
        have hecit : e.category_id = cr.id := by simpa using hef.2
        simp [hcr_name, hecit]
      · intro hx
        obtain ⟨fa, hfam, hxfa⟩ := List.mem_map.mp hx
        have hfm := List.mem_filter.mp hfam
        obtain ⟨e, he, hprop⟩ := List.any_eq_true.mp hfm.2
        simp only [Bool.and_eq_true, beq_iff_eq] at hprop
        obtain ⟨hef, hca⟩ := hprop
        obtain ⟨ca, hcam, hcaprop⟩ := List.any_eq_true.mp hca
        simp only [Bool.and_eq_true, beq_iff_eq] at hcaprop
        have hcacr : ca = cr :=
          pairwise_unique Category.name _ (hcatPW.imp fun h => h.1) hcam
            hcr_mem (hcaprop.1.trans hcr_name.symm)
        refine List.mem_map.mpr ⟨e, List.mem_filter.mpr ⟨he, by
          simp [hcaprop.2, hcacr]⟩, by rw [hef, hxfa]⟩
    have hperm : List.Perm (sortNat (categoryFactIds db category))
        ((db.facts.filter (inCategory db category)).map (fun fa => fa.id)) :=
      (List.perm_ext_iff_of_nodup hA_nodup hB_nodup).mpr hmem
    have hsorted2 : List.Pairwise (· ≤ ·)
        ((db.facts.filter (inCategory db category)).map (fun fa => fa.id)) :=
      hidPW.imp fun h => Nat.le_of_lt h
    have hAB : sortNat (categoryFactIds db category) =
        (db.facts.filter (inCategory db category)).map (fun fa => fa.id) :=
      List.eq_of_perm_of_sorted hperm (sortNat_sorted _) hsorted2
    rw [hAB, List.filterMap_map]
    refine filterMap_eq_map_of_forall _ _ _ ?_
    intro fa hfa
    have hfam := (List.mem_filter.mp hfa).1
    show lookupFactName db fa.id = some fa.name
    unfold lookupFactName
    rw [find?_proj_eq_some Fact.id _ (hfactPW.imp fun h => Nat.ne_of_lt h.2)
      hfam rfl]
    rfl

/-- Witness for C5 at a concrete two-fact store. -/
theorem consult_no_position_witness :
    WF (add_fact (add_fact emptyDB "x" ["A"]).1 "y" ["A"]).1 ∧
    (consult (add_fact (add_fact emptyDB "x" ["A"]).1 "y" ["A"]).1 "A" none =
      ((add_fact (add_fact emptyDB "x" ["A"]).1 "y" ["A"]).1.facts.filter
        (inCategory (add_fact (add_fact emptyDB "x" ["A"]).1 "y" ["A"]).1
          "A")).map (fun fa => fa.name) ∧
     List.Pairwise (· < ·)
       (((add_fact (add_fact emptyDB "x" ["A"]).1 "y" ["A"]).1.facts.filter
         (inCategory (add_fact (add_fact emptyDB "x" ["A"]).1 "y" ["A"]).1
           "A")).map (fun fa => fa.id))) :=
  ⟨by decide,
   consult_no_position (add_fact (add_fact emptyDB "x" ["A"]).1 "y" ["A"]).1
     "A" (by decide)⟩

/-- C7: for every category c and 1-based position p greater than the number
of facts currently in c, remove_fact(c, p) fails with NotFound and leaves
the store unchanged, while consult(c, p) on the same state returns an empty
sequence without raising any error. -/
theorem remove_fact_out_of_range (db : DB) (category : String) (p : Int)
    (h : ((consult db category none).length : Int) < p) :
    remove_fact db category p = (db, some Err.notFound) ∧
    consult db category (some p) = [] := by
  have hlen : (consult db category none).length ≤ (p - 1).toNat := by omega
  have hc : consult db category (some p) = [] := by
    show (((sortNat (categoryFactIds db category)).filterMap
      (lookupFactName db)).drop (p - 1).toNat).take 1 = []
    have hdrop : (consult db category none).drop (p - 1).toNat = [] :=
      List.drop_eq_nil_of_le hlen
    simpa [consult] using congrArg (List.take 1) hdrop
  refine ⟨?_, hc⟩
  unfold remove_fact
  rw [hc]

/-- Witness for C7 at a concrete store: a category holding one fact,
position 5. -/
theorem remove_fact_out_of_range_witness :
    ((consult (add_fact emptyDB "x" ["A"]).1 "A" none).length : Int) < 5 ∧
    (remove_fact (add_fact emptyDB "x" ["A"]).1 "A" 5 =
      ((add_fact emptyDB "x" ["A"]).1, some Err.notFound) ∧
     consult (add_fact emptyDB "x" ["A"]).1 "A" (some 5) = []) :=
  ⟨by decide,
   remove_fact_out_of_range (add_fact emptyDB "x" ["A"]).1 "A" 5 (by decide)⟩

/-- C10: for every category holding at least one fact, consult with
position 0 — below the documented 1-based range — returns the one-element
sequence holding the category's first fact: the computed offset of -1 is
treated as zero by SQLite, rather than producing an empty sequence or an
error. -/
theorem consult_position_zero (db : DB) (category : String)
    (h : consult db category none ≠ []) :
    consult db category (some 0) = (consult db category none).take 1 ∧
    (consult db category (some 0)).length = 1 := by
  have h0 : consult db category (some 0) = (consult db category none).take 1 := by
    show (((sortNat (categoryFactIds db category)).filterMap
      (lookupFactName db)).drop ((0 : Int) - 1).toNat).take 1 = _
    simp [consult]
  refine ⟨h0, ?_⟩
  rw [h0]
  rcases hne : consult db category none with _ | ⟨a, l⟩
  · exact absurd hne h
  · simp

/-- Witness for C10 at a concrete store with one fact in the category. -/
theorem consult_position_zero_witness :
    consult (add_fact emptyDB "x" ["A"]).1 "A" none ≠ [] ∧
    (consult (add_fact emptyDB "x" ["A"]).1 "A" (some 0) =
      (consult (add_fact emptyDB "x" ["A"]).1 "A" none).take 1 ∧
     (consult (add_fact emptyDB "x" ["A"]).1 "A" (some 0)).length = 1) :=
  ⟨by decide, consult_position_zero (add_fact emptyDB "x" ["A"]).1 "A" (by decide)⟩

/-- Characterization of a successful single-category add_fact on a
well-formed store with no pre-existing (fact, category) entry: it succeeds
and appends exactly one entry linking the resolved fact and category rows,
which conflict with no pre-existing entry. -/
theorem add_fact_single (db : DB) (f c : String) (hwf : WF db)
    (hne : ¬ entryExists db f c) :
    ∃ fr cr,
      (add_fact db f [c]).2 = none ∧
      (add_fact db f [c]).1 =
        { phase2 db f [c] with
            entries := db.entries ++ [⟨db.nextEntryId, cr.id, fr.id⟩],
            nextEntryId := db.nextEntryId + 1 } ∧
      fr.name = f ∧
      (phase2 db f [c]).facts.find? (fun g => g.name == f) = some fr ∧
      (phase2 db f [c]).categories.find? (fun g => g.name == c) = some cr ∧
      (∀ e ∈ db.entries, ¬(e.category_id = cr.id ∧ e.fact_id = fr.id)) ∧
      (phase2 db f [c]).facts = (insertFactRow db f).1.facts ∧
      (phase2 db f [c]).entries = db.entries := by
  obtain ⟨hcatPW, hfactPW, hentPW, hcbound, hfbound, hebound, -⟩ := hwf
  have hfact : ∃ fr,
      (insertFactRow db f).1.facts.find? (fun g => g.name == f) = some fr ∧
      fr.name = f ∧ ((fr ∈ db.facts) ∨ fr.id = db.nextFactId) := by
    rcases insertFactRow_branch db f with ⟨⟨fa0, hm, hn⟩, heq1⟩ | ⟨habs, heq1⟩
    · refine ⟨fa0, ?_, hn, .inl hm⟩
      rw [heq1]
      exact find?_proj_eq_some Fact.name db.facts
        (hfactPW.imp fun h => h.1) hm hn
    · refine ⟨⟨db.nextFactId, f⟩, ?_, rfl, .inr rfl⟩
      rw [heq1]
      show (db.facts ++ [(⟨db.nextFactId, f⟩ : Fact)]).find?
        (fun g => g.name == f) = some ⟨db.nextFactId, f⟩
      rw [List.find?_append]
      have hnone : db.facts.find? (fun g => g.name == f) = none := by
        rw [List.find?_eq_none]
        intro fa2 hfa2
        simpa using habs fa2 hfa2
      rw [hnone]
      simp
  obtain ⟨fr, hffind1, hfrname, hfrcase⟩ := hfact
  have hph : phase2 db f [c] = (add_category (insertFactRow db f).1 c).1 := rfl
  obtain ⟨hc1, he1, hncat1, hne1⟩ := insertFactRow_cats db f
  have hcat : ∃ cr,
      (add_category (insertFactRow db f).1 c).1.categories.find?
        (fun g => g.name == c) = some cr ∧
      cr.name = c ∧ ((cr ∈ db.categories) ∨ cr.id = db.nextCategoryId) := by
    rcases add_category_branch (insertFactRow db f).1 c with
      ⟨⟨ca0, hm, hn⟩, heq2⟩ | ⟨habs, heq2⟩
    · rw [hc1] at hm
      refine ⟨ca0, ?_, hn, .inl hm⟩
      rw [heq2, hc1]
      exact find?_proj_eq_some Category.name db.categories
        (hcatPW.imp fun h => h.1) hm hn
    · rw [hc1] at habs
      refine ⟨⟨db.nextCategoryId, c⟩, ?_, rfl, .inr rfl⟩
      rw [heq2, hc1, hncat1]
      show (db.categories ++ [(⟨db.nextCategoryId, c⟩ : Category)]).find?
        (fun g => g.name == c) = some ⟨db.nextCategoryId, c⟩
      rw [List.find?_append]
      have hnone : db.categories.find? (fun g => g.name == c) = none := by
        rw [List.find?_eq_none]
        intro ca2 hca2
        simpa using habs ca2 hca2
      rw [hnone]
      simp
  obtain ⟨cr, hcfind2, hcrname, hcrcase⟩ := hcat
  have hconf : ∀ e ∈ db.entries,
      ¬(e.category_id = cr.id ∧ e.fact_id = fr.id) := by
    rintro e he ⟨h1, h2⟩
    rcases hfrcase with hfrold | hfrnew
    · rcases hcrcase with hcrold | hcrnew
      · exact hne ⟨e, he, fr, hfrold, cr, hcrold, hfrname, hcrname, h2, h1⟩
      · have hb := (hebound e he).1
        omega
    · have hb := (hebound e he).2
      omega
  have hfacts2 : (add_category (insertFactRow db f).1 c).1.facts =
      (insertFactRow db f).1.facts := (add_category_facts _ c).1
  have hents2 : (add_category (insertFactRow db f).1 c).1.entries =
      db.entries := ((add_category_facts _ c).2.1).trans he1
  have hnid2 : (add_category (insertFactRow db f).1 c).1.nextEntryId =
      db.nextEntryId := ((add_category_facts _ c).2.2.2).trans hne1
  have hffind2 : (add_category (insertFactRow db f).1 c).1.facts.find?
      (fun g => g.name == f) = some fr := by
    rw [hfacts2]
    exact hffind1
  have hinsert : insertEntries (phase2 db f [c]) f [c]
      (phase2 db f [c]).entries (phase2 db f [c]).nextEntryId =
      some (db.entries ++ [⟨db.nextEntryId, cr.id, fr.id⟩],
        db.nextEntryId + 1) := by
    rw [hph, hents2, hnid2, insertEntries_cons,
      insertEntry_of_no_conflict _ _ _ _ _ _ fr cr hffind2 hcfind2 hconf]
    rfl
  have hfinal := add_fact_eq db f [c]
  rw [hinsert] at hfinal
  refine ⟨fr, cr, ?_, ?_, hfrname, ?_, ?_, hconf, ?_, ?_⟩
  · rw [hfinal]
  · rw [hfinal]
  · rw [hph]
    exact hffind2
  · rw [hph]
    exact hcfind2
  · rw [hph]
    exact hfacts2
  · rw [hph]
    exact hents2

/-- C1: for every fact text f and category name c such that no Entry (f, c)
exists in the (well-formed) store, add_fact(f, [c]) succeeds and a
subsequent consult(c) contains f exactly once. -/
theorem add_fact_consult_once (db : DB) (f c : String) (hwf : WF db)
    (hne : ¬ entryExists db f c) :
    (add_fact db f [c]).2 = none ∧
    (consult (add_fact db f [c]).1 c none).count f = 1 := by
  obtain ⟨fr, cr, hok, hres, hfrname, hffind, hcfind, hconf, hfacts, hents⟩ :=
    add_fact_single db f c hwf hne
  refine ⟨hok, ?_⟩
  have hwf1 : WF (insertFactRow db f).1 := insertFactRow_wf db f hwf
  have hfactPW1 : factPW (insertFactRow db f).1.facts := hwf1.2.1
  have hffind' : (insertFactRow db f).1.facts.find?
      (fun g => g.name == f) = some fr := by
    rw [← hfacts]
    exact hffind
  have hfr_mem : fr ∈ (insertFactRow db f).1.facts :=
    List.mem_of_find?_eq_some hffind'
  have hdbents : (add_fact db f [c]).1.entries =
      db.entries ++ [⟨db.nextEntryId, cr.id, fr.id⟩] := by rw [hres]
  have hdbfacts : (add_fact db f [c]).1.facts =
      (insertFactRow db f).1.facts := by
    rw [hres]
    exact hfacts
  have hfc : findCategory (add_fact db f [c]).1 c = some cr := by
    show (add_fact db f [c]).1.categories.find? (fun g => g.name == c) = some cr
    rw [show (add_fact db f [c]).1.categories =
      (phase2 db f [c]).categories from by rw [hres]]
    exact hcfind
  have hids : categoryFactIds (add_fact db f [c]).1 c =
      (db.entries.filter (fun e => e.category_id == cr.id)).map
        (fun e => e.fact_id) ++ [fr.id] := by
    rw [categoryFactIds_eq _ c cr hfc, hdbents, List.filter_append,
      List.map_append]
    simp [entryHit]
  have hlook_fr : lookupFactName (add_fact db f [c]).1 fr.id = some f := by
    unfold lookupFactName
    rw [hdbfacts, find?_proj_eq_some Fact.id _
      (hfactPW1.imp fun h => Nat.ne_of_lt h.2) hfr_mem rfl]
    simp [hfrname]
  have hold : ∀ x ∈ (db.entries.filter
      (fun e => e.category_id == cr.id)).map (fun e => e.fact_id),
      ¬((lookupFactName (add_fact db f [c]).1 x == some f) = true) := by
    intro x hx hbad
    obtain ⟨e, he', hx_eq⟩ := List.mem_map.mp hx
    have hem := List.mem_filter.mp he'
    have hbad' : lookupFactName (add_fact db f [c]).1 x = some f := by
      simpa using hbad
    unfold lookupFactName at hbad'
    rw [hdbfacts] at hbad'
    obtain ⟨g, hg, hgname⟩ := Option.map_eq_some'.mp hbad'
    have hg_mem := List.mem_of_find?_eq_some hg
    have hgid : g.id = x := by simpa using List.find?_some hg
    have hgfr : g = fr :=
      pairwise_unique Fact.name _ (hfactPW1.imp fun h => h.1) hg_mem hfr_mem
        (by rw [hgname, hfrname])
    refine hconf e hem.1 ⟨by simpa using hem.2, ?_⟩
    rw [hx_eq, ← hgid, hgfr]
  show ((sortNat (categoryFactIds (add_fact db f [c]).1 c)).filterMap
    (lookupFactName (add_fact db f [c]).1)).count f = 1
  rw [List.count_filterMap,
    (sortNat_perm (categoryFactIds (add_fact db f [c]).1 c)).countP_eq,
    hids, List.countP_append, List.countP_eq_zero.mpr hold]
  simp [List.countP_cons, hlook_fr]

/-- Witness for C1 on the empty store with fact "x" and category "A". -/
theorem add_fact_consult_once_witness :
    (WF emptyDB ∧ ¬ entryExists emptyDB "x" "A") ∧
    ((add_fact emptyDB "x" ["A"]).2 = none ∧
     (consult (add_fact emptyDB "x" ["A"]).1 "A" none).count "x" = 1) :=
  ⟨⟨by decide, by decide⟩,
   add_fact_consult_once emptyDB "x" "A" (by decide) (by decide)⟩

/-- C6: after add_fact(x, [A]) succeeds on a well-formed store that has no
(x, B) entry, with A and B distinct, add_fact(x, [B]) also succeeds — the
duplicate fact text is silently absorbed, only a new Entry is created — and
search(x) afterwards returns x exactly once, not once per category. -/
theorem add_fact_second_category (db : DB) (x A B : String) (hwf : WF db)
    (hAB : A ≠ B) (h1 : (add_fact db x [A]).2 = none)
    (h2 : ¬ entryExists db x B) :
    (add_fact (add_fact db x [A]).1 x [B]).2 = none ∧
    (search (add_fact (add_fact db x [A]).1 x [B]).1 x).count x = 1 := by
  have hwf1 : WF (add_fact db x [A]).1 := add_fact_wf db x [A] hwf
  obtain ⟨es', nid', hie, heq⟩ := add_fact_ok db x [A] h1
  obtain ⟨extra, hex, hprops⟩ := insertEntries_spec _ _ _ _ _ hie
  have hpe := (phase2_entries db x [A]).1
  obtain ⟨hfacts2, _, _, _⟩ :=
    ensureCategories_others (insertFactRow db x).1 [A]
  obtain ⟨hc1, _, hncat1, _⟩ := insertFactRow_cats db x
  obtain ⟨extraC, hcatx, _, hcprops⟩ :=
    ensureCategories_extends (insertFactRow db x).1 [A]
  have hd1f : (add_fact db x [A]).1.facts = (insertFactRow db x).1.facts := by
    rw [heq]
    exact hfacts2
  have hd1c : (add_fact db x [A]).1.categories =
      (phase2 db x [A]).categories := by rw [heq]
  have hd1e : (add_fact db x [A]).1.entries = es' := by rw [heq]
  have hneB : ¬ entryExists (add_fact db x [A]).1 x B := by
    rintro ⟨e, he, fa, hfa, ca, hca, hfn, hcn, hef, hec⟩
    rw [hd1e, hex, hpe] at he
    rw [hd1f] at hfa
    rw [hd1c] at hca
    rcases List.mem_append.mp he with he_old | he_new
    · have hfa' : fa ∈ db.facts ∨ fa.id = db.nextFactId := by
        rcases insertFactRow_branch db x with ⟨_, heq1⟩ | ⟨_, heq1⟩
        · rw [heq1] at hfa
          exact .inl hfa
        · rw [heq1] at hfa
          rcases List.mem_append.mp hfa with hm | hm
          · exact .inl hm
          · right
            have : fa = ⟨db.nextFactId, x⟩ := by simpa using hm
            rw [this]
      rcases hfa' with hfa_old | hfa_new
      · have hca' : ca ∈ db.categories ∨ db.nextCategoryId ≤ ca.id := by
          rw [phase2, hcatx, hc1] at hca
          rcases List.mem_append.mp hca with hm | hm
          · exact .inl hm
          · right
            have hle := (hcprops ca hm).1
            rw [hncat1] at hle
            exact hle
        rcases hca' with hca_old | hca_new
        · exact h2 ⟨e, he_old, fa, hfa_old, ca, hca_old, hfn, hcn, hef, hec⟩
        · have hb := (hwf.2.2.2.2.2.1 e he_old).1
          omega
      · have hb := (hwf.2.2.2.2.2.1 e he_old).2
        omega
    · obtain ⟨-, c', hc'm, cr, hcrm, hcrn, hecid⟩ := hprops e he_new
      have hc'A : c' = A := by simpa using hc'm
      have hcapw : catPW (add_fact db x [A]).1.categories := hwf1.1
      rw [hd1c] at hcapw
      have hcacr : ca = cr :=
        pairwise_unique Category.id _ (hcapw.imp fun h => h.2) hca hcrm
          (hec.symm.trans hecid)
      rw [hcacr, hcrn, hc'A] at hcn
      exact hAB hcn
  obtain ⟨fr2, cr2, hok2, hres2, hfr2name, hffind2, -, -, hfacts3, -⟩ :=
    add_fact_single (add_fact db x [A]).1 x B hwf1 hneB
  refine ⟨hok2, ?_⟩
  have hd3f : (add_fact (add_fact db x [A]).1 x [B]).1.facts =
      (insertFactRow (add_fact db x [A]).1 x).1.facts := by
    rw [hres2]
    exact hfacts3
  have hwf3 : WF (add_fact (add_fact db x [A]).1 x [B]).1 :=
    add_fact_wf _ x [B] hwf1
  have hnamesPW : (add_fact (add_fact db x [A]).1 x [B]).1.facts.Pairwise
      (fun a b => a.name ≠ b.name) := hwf3.2.1.imp fun h => h.1
  have hfr2mem : fr2 ∈ (add_fact (add_fact db x [A]).1 x [B]).1.facts := by
    rw [hd3f, ← hfacts3]
    exact List.mem_of_find?_eq_some hffind2
  unfold search
  rw [List.count_eq_countP, List.countP_map, List.countP_filter]
  refine countP_eq_one_of_key Fact.name _ _ hnamesPW fr2 hfr2mem ?_ ?_
  · simp only [Function.comp, Bool.and_eq_true, beq_iff_eq]
    refine ⟨hfr2name, ?_⟩
    rw [hfr2name]
    exact likeMatch_self x.data
  · intro b hb
    simp only [Function.comp, Bool.and_eq_true, beq_iff_eq] at hb
    rw [hb.1, hfr2name]

/-- Witness for C6 on the empty store with fact "x" and categories "A",
"B". -/
theorem add_fact_second_category_witness :
    (WF emptyDB ∧ "A" ≠ "B" ∧ (add_fact emptyDB "x" ["A"]).2 = none ∧
      ¬ entryExists emptyDB "x" "B") ∧
    ((add_fact (add_fact emptyDB "x" ["A"]).1 "x" ["B"]).2 = none ∧
     (search (add_fact (add_fact emptyDB "x" ["A"]).1 "x" ["B"]).1
       "x").count "x" = 1) :=
  ⟨⟨by decide, by decide, by decide, by decide⟩,
   add_fact_second_category emptyDB "x" "A" "B" (by decide) (by decide)
     (by decide) (by decide)⟩

/-- C3 (amended): add_fact fails with DuplicateEntry when an Entry for
(fact, c) already exists for any requested category c; on such a failure
the Category and Fact rows created during the call persist (every requested
category and a fact row named fact exist afterwards), but no Entry created
during the call survives: the entries table is exactly as before the call,
the single entry-insert transaction having rolled back. -/
theorem add_fact_duplicate_entry (db : DB) (f : String) (cs : List String)
    (c : String) (hwf : WF db) (hc : c ∈ cs) (hex : entryExists db f c) :
    (add_fact db f cs).2 = some Err.duplicate ∧
    (add_fact db f cs).1.entries = db.entries ∧
    (∃ fa ∈ (add_fact db f cs).1.facts, fa.name = f) ∧
    (∀ c' ∈ cs, ∃ ca ∈ (add_fact db f cs).1.categories, ca.name = c') := by
  obtain ⟨e, he, fa, hfa, ca, hca, hfname, hcname, hefid, hecid⟩ := hex
  have hdb1 : (insertFactRow db f).1 = db :=
    insertFactRow_of_present db f ⟨fa, hfa, hfname⟩
  have hph : phase2 db f cs = ensureCategories db cs := by
    rw [phase2, hdb1]
  obtain ⟨extra, hcat, _, _⟩ := ensureCategories_extends db cs
  obtain ⟨hfacts, hentries, _, _⟩ := ensureCategories_others db cs
  have hfactnames : db.facts.Pairwise (fun a b => a.name ≠ b.name) :=
    hwf.2.1.imp (fun h => h.1)
  have hcatnames : db.categories.Pairwise (fun a b => a.name ≠ b.name) :=
    hwf.1.imp (fun h => h.1)
  have hffind :
      (phase2 db f cs).facts.find? (fun g => g.name == f) = some fa := by
    rw [hph, hfacts]
    exact find?_proj_eq_some Fact.name db.facts hfactnames hfa hfname
  have hcfind :
      (phase2 db f cs).categories.find? (fun g => g.name == c) = some ca := by
    rw [hph, hcat, List.find?_append,
      find?_proj_eq_some Category.name db.categories hcatnames hca hcname]
    rfl
  have hie : insertEntries (phase2 db f cs) f cs (phase2 db f cs).entries
      (phase2 db f cs).nextEntryId = none := by
    refine insertEntries_conflict (phase2 db f cs) f fa hffind cs _ _ c ca hc
      hcfind ⟨e, ?_, hecid, hefid⟩
    rw [hph, hentries]
    exact he
  rw [add_fact_eq, hie]
  refine ⟨rfl, ?_, ?_, ?_⟩
  · show (phase2 db f cs).entries = db.entries
    rw [hph, hentries]
  · refine ⟨fa, ?_, hfname⟩
    show fa ∈ (phase2 db f cs).facts
    rw [hph, hfacts]
    exact hfa
  · intro c' hc'
    show ∃ ca' ∈ (phase2 db f cs).categories, ca'.name = c'
    rw [hph]
    exact ensureCategories_mem db cs c' hc'

/-- Witness for the amended C3 at a concrete store: "x" already linked to
"A", then add_fact("x", ["B", "A"]). -/
theorem add_fact_duplicate_entry_witness :
    (WF (add_fact emptyDB "x" ["A"]).1 ∧ "A" ∈ ["B", "A"] ∧
      entryExists (add_fact emptyDB "x" ["A"]).1 "x" "A") ∧
    ((add_fact (add_fact emptyDB "x" ["A"]).1 "x" ["B", "A"]).2 =
        some Err.duplicate ∧
      (add_fact (add_fact emptyDB "x" ["A"]).1 "x" ["B", "A"]).1.entries =
        (add_fact emptyDB "x" ["A"]).1.entries ∧
      (∃ fa ∈ (add_fact (add_fact emptyDB "x" ["A"]).1 "x"
        ["B", "A"]).1.facts, fa.name = "x") ∧
      (∀ c' ∈ ["B", "A"], ∃ ca ∈ (add_fact (add_fact emptyDB "x" ["A"]).1
        "x" ["B", "A"]).1.categories, ca.name = c')) :=
  ⟨⟨by decide, by decide, by decide⟩,
   add_fact_duplicate_entry (add_fact emptyDB "x" ["A"]).1 "x" ["B", "A"]
     "A" (by decide) (by decide) (by decide)⟩

theorem remove_fact_found (db : DB) (category : String) (p : Int)
    (fn : String) (rest : List String) (f0 : Fact) (c0 : Category)
    (hcons : consult db category (some p) = fn :: rest)
    (hf : findFact db fn = some f0) (hc : findCategory db category = some c0) :
    remove_fact db category p =
      ({ db with
          entries := db.entries.filter (fun e => !(entryHit f0 c0 e)),
          facts := db.facts.filter (fun fa =>
            !((db.entries.filter (entryHit f0 c0)).any
                (fun e => e.fact_id == fa.id) &&
              !((db.entries.filter (fun e => !(entryHit f0 c0 e))).any
                  (fun e => e.fact_id == fa.id)))) },
       none) := by
  simp only [remove_fact, hcons, hf, hc]

/-- C2 (amended): the orphan-free invariant (no Fact row with zero Entries)
is preserved by add_category, remove_category and remove_fact — the
deletion trigger removes a fact as soon as its last entry goes — and by a
successful add_fact with a nonempty category list; a failing add_fact can
violate it (see the counterexample). -/
theorem store_noOrphan (db : DB) (c c2 c3 : String) (p : Int) (f : String)
    (cs : List String) (h : noOrphan db) :
    noOrphan (add_category db c).1 ∧
    noOrphan (remove_category db c2).1 ∧
    noOrphan (remove_fact db c3 p).1 ∧
    ((add_fact db f cs).2 = none → cs ≠ [] →
      noOrphan (add_fact db f cs).1) := by
  refine ⟨?_, ?_, ?_, ?_⟩
  · obtain ⟨hf, he, _, _⟩ := add_category_facts db c
    unfold noOrphan
    rw [hf, he]
    exact h
  · exact h
  · cases hcons : consult db c3 (some p) with
    | nil =>
      have heq : remove_fact db c3 p = (db, some Err.notFound) := by
        simp only [remove_fact, hcons]
      rw [heq]
      exact h
    | cons fn rest =>
      cases hff : findFact db fn with
      | none =>
        have heq : remove_fact db c3 p = (db, none) := by
          cases hfc : findCategory db c3 <;>
            simp only [remove_fact, hcons, hff, hfc]
        rw [heq]
        exact h
      | some f0 =>
        cases hfc : findCategory db c3 with
        | none =>
          have heq : remove_fact db c3 p = (db, none) := by
            simp only [remove_fact, hcons, hff, hfc]
          rw [heq]
          exact h
        | some c0 =>
          rw [remove_fact_found db c3 p fn rest f0 c0 hcons hff hfc]
          unfold noOrphan
          intro fa hfa
          rw [List.mem_filter] at hfa
          obtain ⟨hfa1, hfa2⟩ := hfa
          obtain ⟨e, he, heid⟩ := h fa hfa1
          by_cases hhit : entryHit f0 c0 e = true
          · have hA : (db.entries.filter (entryHit f0 c0)).any
                (fun e2 => e2.fact_id == fa.id) = true :=
              List.any_eq_true.mpr
                ⟨e, List.mem_filter.mpr ⟨he, hhit⟩, by simp [heid]⟩
            rw [hA] at hfa2
            have hB : (db.entries.filter (fun e2 => !(entryHit f0 c0 e2))).any
                (fun e2 => e2.fact_id == fa.id) = true := by
              simpa using hfa2
            obtain ⟨e2, he2, he2id⟩ := List.any_eq_true.mp hB
            refine ⟨e2, he2, by simpa using he2id⟩
          · refine ⟨e, List.mem_filter.mpr ⟨he, by simp [hhit]⟩, heid⟩
  · intro hok hne
    obtain ⟨es', nid', hie, heq⟩ := add_fact_ok db f cs hok
    obtain ⟨extra, hex, _⟩ := insertEntries_spec _ _ _ _ _ hie
    have hpe := (phase2_entries db f cs).1
    obtain ⟨hfacts2, _, _, _⟩ := ensureCategories_others (insertFactRow db f).1 cs
    rw [heq]
    unfold noOrphan
    intro fa hfa
    have hfa' : fa ∈ (insertFactRow db f).1.facts := by
      have : ({ phase2 db f cs with
          entries := es', nextEntryId := nid' } : DB).facts =
          (insertFactRow db f).1.facts := by
        show (phase2 db f cs).facts = _
        rw [phase2, hfacts2]
      rw [this] at hfa
      exact hfa
    have hsub : ∀ e ∈ (phase2 db f cs).entries, e ∈ es' := by
      intro e he
      rw [hex]
      exact List.mem_append_left _ he
    rcases insertFactRow_branch db f with ⟨_, heq1⟩ | ⟨habs, heq1⟩
    · rw [heq1] at hfa'
      obtain ⟨e, he, heid⟩ := h fa hfa'
      refine ⟨e, hsub e ?_, heid⟩
      rw [hpe]
      exact he
    · rw [heq1] at hfa'
      rcases List.mem_append.mp hfa' with hold | hnew
      · obtain ⟨e, he, heid⟩ := h fa hold
        refine ⟨e, hsub e ?_, heid⟩
        rw [hpe]
        exact he
      · have hfa_eq : fa = ⟨db.nextFactId, f⟩ := by simpa using hnew
        cases cs with
        | nil => exact absurd rfl hne
        | cons c0 cs' =>
          have hfr : (phase2 db f (c0 :: cs')).facts.find?
              (fun g => g.name == f) = some ⟨db.nextFactId, f⟩ := by
            rw [phase2, hfacts2, heq1]
            show (db.facts ++ [(⟨db.nextFactId, f⟩ : Fact)]).find?
              (fun g => g.name == f) = some ⟨db.nextFactId, f⟩
            rw [List.find?_append]
            have hnone : db.facts.find? (fun g => g.name == f) = none := by
              rw [List.find?_eq_none]
              intro fa2 hfa2
              simpa using habs fa2 hfa2
            rw [hnone]
            simp
          obtain ⟨ca, hcam, hcan⟩ :=
            ensureCategories_mem (insertFactRow db f).1 (c0 :: cs') c0
              (List.mem_cons_self c0 cs')
          cases hfind : (phase2 db f (c0 :: cs')).categories.find?
              (fun g => g.name == c0) with
          | none =>
            exfalso
            have := List.find?_eq_none.mp hfind ca hcam
            simp [hcan] at this
          | some cr =>
            obtain ⟨e, he, heid⟩ :=
              insertEntries_head_mem (phase2 db f (c0 :: cs')) f c0 cs'
                (phase2 db f (c0 :: cs')).entries
                (phase2 db f (c0 :: cs')).nextEntryId
                ⟨db.nextFactId, f⟩ hfr cr hfind hie
            refine ⟨e, he, ?_⟩
            rw [heid, hfa_eq]

/-- Witness for the amended C2 at a concrete store holding one linked
fact. -/
theorem store_noOrphan_witness :
    noOrphan (add_fact emptyDB "x" ["A"]).1 ∧
    (noOrphan (add_category (add_fact emptyDB "x" ["A"]).1 "B").1 ∧
     noOrphan (remove_category (add_fact emptyDB "x" ["A"]).1 "A").1 ∧
     noOrphan (remove_fact (add_fact emptyDB "x" ["A"]).1 "A" 1).1 ∧
     ((add_fact (add_fact emptyDB "x" ["A"]).1 "y" ["A"]).2 = none →
       ["A"] ≠ [] →
       noOrphan (add_fact (add_fact emptyDB "x" ["A"]).1 "y" ["A"]).1)) :=
  ⟨by decide,
   store_noOrphan (add_fact emptyDB "x" ["A"]).1 "B" "A" "A" 1 "y" ["A"]
     (by decide)⟩

/-- C2 counterexample: add_fact("x", ["A", "A"]) on a fresh store completes
with DuplicateException, yet leaves a Fact row ("x") with zero Entries: the
fact and category rows were committed before the entry insertions rolled
back, so the store does keep an entry-less fact after the operation. -/
theorem orphan_fact_after_add_fact_cex :
    (add_fact emptyDB "x" ["A", "A"]).2 = some Err.duplicate ∧
    ∃ f ∈ (add_fact emptyDB "x" ["A", "A"]).1.facts,
      ∀ e ∈ (add_fact emptyDB "x" ["A", "A"]).1.entries, e.fact_id ≠ f.id := by
  decide

/-- C3 counterexample: after add_fact("x", ["A"]), the call
add_fact("x", ["B", "A"]) links "B" before hitting the duplicate on "A";
the failure rolls the whole entry-insert transaction back, so "B" does NOT
remain linked (consult("B") is empty and the entries table is exactly as
before the call), while the category row "B" does persist. -/
theorem add_fact_rollback_cex :
    (add_fact (add_fact emptyDB "x" ["A"]).1 "x" ["B", "A"]).2 =
      some Err.duplicate ∧
    (∃ c ∈ (add_fact (add_fact emptyDB "x" ["A"]).1 "x"
      ["B", "A"]).1.categories, c.name = "B") ∧
    (add_fact (add_fact emptyDB "x" ["A"]).1 "x" ["B", "A"]).1.entries =
      (add_fact emptyDB "x" ["A"]).1.entries ∧
    consult (add_fact (add_fact emptyDB "x" ["A"]).1 "x" ["B", "A"]).1
      "B" none = [] := by
  decide

/-- C4: the two backends diverge. After add_fact("x", ["A"]), the embedded
backend answers consult("A", 1) with ["x"], while the client-server
backend's consult raises ProgrammingError: its positional query pastes the
sqlite placeholder "OFFSET ?" into a %s-parameterised statement, so the
driver refuses the two supplied parameters. -/
theorem backend_consult_divergence :
    consult (add_fact emptyDB "x" ["A"]).1 "A" (some 1) = ["x"] ∧
    FactStoreMySQL.consult (add_fact emptyDB "x" ["A"]).1 "A" (some 1) =
      Except.error Err.programmingError := by
  constructor
  · decide
  · rfl

/-- C8: remove_category does not cascade in the embedded backend. After
add_fact("x", ["A"]), remove_category("A") deletes only the category row:
the entry survives (sqlite3 foreign keys are off, so ON DELETE CASCADE is
inert), the trigger never fires, and search("x") still returns the fact. -/
theorem remove_category_no_cascade :
    (remove_category (add_fact emptyDB "x" ["A"]).1 "A").1.categories = [] ∧
    (remove_category (add_fact emptyDB "x" ["A"]).1 "A").1.entries ≠ [] ∧
    search (remove_category (add_fact emptyDB "x" ["A"]).1 "A").1 "x" =
      ["x"] := by
  decide

theorem likeMatch_lit_pct (ps : List Char)
    (hw : ∀ ch ∈ ps, ch ≠ '%' ∧ ch ≠ '_') :
    ∀ t : List Char, likeMatch (ps ++ ['%']) t = true ↔
      ∃ t1 t2, t = t1 ++ t2 ∧
        t1.map Char.toLower = ps.map Char.toLower := by
  induction ps with
  | nil =>
    intro t
    constructor
    · intro _
      exact ⟨[], t, rfl, rfl⟩
    · intro _
      exact likeMatch_all t
  | cons c cs ih =>
    intro t
    have hc := hw c (List.mem_cons_self c cs)
    have hw' : ∀ ch ∈ cs, ch ≠ '%' ∧ ch ≠ '_' :=
      fun ch hch => hw ch (List.mem_cons_of_mem c hch)
    cases t with
    | nil =>
      constructor
      · intro hbad
        exfalso
        rw [show (c :: cs) ++ ['%'] = c :: (cs ++ ['%']) from rfl] at hbad
        simp only [likeMatch, if_neg hc.1] at hbad
        exact absurd hbad (by decide)
      · rintro ⟨t1, t2, hsplit, hlow⟩
        exfalso
        have ht1 : t1 = [] := by
          cases t1 with
          | nil => rfl
          | cons u us => simp at hsplit
        rw [ht1] at hlow
        simp at hlow
    | cons d ds =>
      rw [show (c :: cs) ++ ['%'] = c :: (cs ++ ['%']) from rfl]
      simp only [likeMatch, if_neg hc.1, if_neg hc.2]
      rw [Bool.and_eq_true]
      constructor
      · rintro ⟨hch, hrest⟩
        obtain ⟨t1, t2, rfl, hlow⟩ := (ih hw' ds).mp hrest
        refine ⟨d :: t1, t2, rfl, ?_⟩
        have hch' : c.toLower = d.toLower := by simpa using hch
        simp [List.map_cons, hlow, hch']
      · rintro ⟨t1, t2, hsplit, hlow⟩
        cases t1 with
        | nil => simp at hlow
        | cons e t1' =>
          rw [List.cons_append, List.cons.injEq] at hsplit
          obtain ⟨rfl, hds⟩ := hsplit
          simp only [List.map_cons, List.cons.injEq] at hlow
          exact ⟨by simp [hlow.1],
            (ih hw' ds).mpr ⟨t1', t2, hds, hlow.2⟩⟩

/-- SQLite LIKE with the pattern percent-p-percent, for a wildcard-free p,
is exactly ASCII-case-insensitive substring containment. -/
theorem likeMatch_ci_substring (p s : List Char)
    (hw : ∀ ch ∈ p, ch ≠ '%' ∧ ch ≠ '_') :
    likeMatch ('%' :: (p ++ ['%'])) s = true ↔
      ∃ l r, s.map Char.toLower = l ++ p.map Char.toLower ++ r := by
  rw [likeMatch_pct, List.any_eq_true]
  constructor
  · rintro ⟨t, htmem, htm⟩
    obtain ⟨s1, hs1⟩ := (List.mem_tails _ _).mp htmem
    obtain ⟨t1, t2, rfl, hlow⟩ := (likeMatch_lit_pct p hw t).mp htm
    refine ⟨s1.map Char.toLower, t2.map Char.toLower, ?_⟩
    rw [← hs1]
    simp [List.map_append, hlow, List.append_assoc]
  · rintro ⟨l, r, hsplit⟩
    refine ⟨s.drop l.length,
      (List.mem_tails _ _).mpr ⟨s.take l.length, List.take_append_drop _ _⟩,
      ?_⟩
    rw [likeMatch_lit_pct p hw]
    refine ⟨(s.drop l.length).take p.length,
      (s.drop l.length).drop p.length,
      (List.take_append_drop _ _).symm, ?_⟩
    rw [List.map_take, List.map_drop, hsplit, List.append_assoc]
    rw [List.drop_left' rfl, List.take_left' (by simp)]

/-- C9 (amended): for every pattern p free of the LIKE wildcards percent
and underscore, search(p) returns exactly the fact texts that contain p as
an ASCII-case-insensitive substring (unanchored on both ends), and returns
an empty sequence — never an error — when no fact matches. -/
theorem search_ci_substring (db : DB) (p : String)
    (hw : ∀ ch ∈ p.data, ch ≠ '%' ∧ ch ≠ '_') :
    (∀ s, s ∈ search db p ↔
      ∃ fa ∈ db.facts, fa.name = s ∧ ciContains p s) ∧
    ((∀ fa ∈ db.facts, ¬ ciContains p fa.name) → search db p = []) := by
  have hchar : ∀ t : String,
      likeMatch ('%' :: (p.data ++ ['%'])) t.data = true ↔ ciContains p t :=
    fun t => likeMatch_ci_substring p.data t.data hw
  constructor
  · intro s
    unfold search
    rw [List.mem_map]
    constructor
    · rintro ⟨fa, hfa, rfl⟩
      have hf := List.mem_filter.mp hfa
      exact ⟨fa, hf.1, rfl, (hchar fa.name).mp hf.2⟩
    · rintro ⟨fa, hfa, rfl, hci⟩
      exact ⟨fa, List.mem_filter.mpr ⟨hfa, (hchar fa.name).mpr hci⟩, rfl⟩
  · intro hnone
    unfold search
    rw [List.map_eq_nil_iff, List.filter_eq_nil_iff]
    intro fa hfa hbad
    exact hnone fa hfa ((hchar fa.name).mp hbad)

/-- Witness for the amended C9 with fact "Hello" and pattern "ell". -/
theorem search_ci_substring_witness :
    (∀ ch ∈ "ell".data, ch ≠ '%' ∧ ch ≠ '_') ∧
    ((∀ s, s ∈ search (add_fact emptyDB "Hello" ["C"]).1 "ell" ↔
        ∃ fa ∈ (add_fact emptyDB "Hello" ["C"]).1.facts,
          fa.name = s ∧ ciContains "ell" s) ∧
     ((∀ fa ∈ (add_fact emptyDB "Hello" ["C"]).1.facts,
         ¬ ciContains "ell" fa.name) →
       search (add_fact emptyDB "Hello" ["C"]).1 "ell" = [])) :=
  ⟨by decide,
   search_ci_substring (add_fact emptyDB "Hello" ["C"]).1 "ell" (by decide)⟩

/-- C9 counterexample: search is not case-sensitive. With the single fact
"A" stored, search("a") returns ["A"], although "a" is not a case-sensitive
substring of "A": SQLite's default LIKE folds ASCII case. -/
theorem search_case_sensitivity_cex :
    search (add_fact emptyDB "A" ["C"]).1 "a" = ["A"] ∧
    ¬ containsSubstring "a" "A" := by
  refine ⟨by decide, ?_⟩
  rintro ⟨l, r, h⟩
  have ha : "A".data = ['A'] := rfl
  have hb : "a".data = ['a'] := rfl
  rw [ha, hb] at h
  rcases l with _ | ⟨c, l⟩ <;> simp_all

end FactStore
